import Mathlib

/-!
Verification development for the `pyasflip` MPM demo (src/pyasflip.py).

The Python/Taichi source is shallowly embedded here: real-valued
floating-point quantities are modelled over `ℝ` (exact real arithmetic;
"to floating-point tolerance" statements become exact equalities), and
the driver-loop collider bookkeeping is modelled executably over `ℚ`,
with the IEEE-754 binary64 values of the float constants entering
`frame_dt // dt` written as their exact rationals.  2×2 matrices are a
four-field structure `Mat2`, 2-vectors are pairs `ℝ × ℝ` with the
componentwise `Prod` algebra.
-/

/-- The advection scheme enumeration (src lines 7-15), including the
`COUNT` sentinel member that the Python `Enum` carries. -/
inductive AdvectionType where
  | PIC | FLIP | NFLIP | SFLIP | APIC | AFLIP | ASFLIP | COUNT
  deriving DecidableEq, Repr

/-- Integer value of each enum member, as in the Python `Enum` (lines 8-15). -/
def AdvectionType.value : AdvectionType → ℕ
  | .PIC => 0 | .FLIP => 1 | .NFLIP => 2 | .SFLIP => 3
  | .APIC => 4 | .AFLIP => 5 | .ASFLIP => 6 | .COUNT => 7

/-- Enum lookup `AdvectionType(v)` for the values the driver produces (0..7). -/
def AdvectionType.fromValue : ℕ → AdvectionType
  | 0 => .PIC | 1 => .FLIP | 2 => .NFLIP | 3 => .SFLIP
  | 4 => .APIC | 5 => .AFLIP | 6 => .ASFLIP | _ => .COUNT

/-- The six module-level advection coefficients (src lines 17-23). -/
structure AdvParams where
  flip_velocity_adjustment : ℝ
  flip_position_adjustment_min : ℝ
  flip_position_adjustment_max : ℝ
  apic_affine_stretching : ℝ
  apic_affine_rotation : ℝ
  particle_collision : ℝ

/-- Model of `SetupAdvection` (src lines 25-79).  The Python function mutates the six
module globals; we model it as taking the previous global values and
returning the new ones.  `COUNT` matches no `elif` branch and leaves the
globals unchanged. -/
def SetupAdvection (advection_type : AdvectionType) (prev : AdvParams) : AdvParams :=
  match advection_type with
  | .PIC    => ⟨0.0, 0.0, 0.0, 0.0, 0.0, 0.0⟩
  | .FLIP   => ⟨0.99, 0.0, 0.0, 0.0, 0.0, 0.0⟩
  | .NFLIP  => ⟨0.97, 1.0, 1.0, 0.0, 0.0, 0.0⟩
  | .SFLIP  => ⟨0.99, 0.0, 1.0, 0.0, 0.0, 1.0⟩
  | .APIC   => ⟨0.0, 0.0, 0.0, 1.0, 1.0, 0.0⟩
  | .AFLIP  => ⟨0.99, 0.0, 0.0, 1.0, 1.0, 0.0⟩
  | .ASFLIP => ⟨0.99, 0.0, 1.0, 1.0, 1.0, 1.0⟩
  | .COUNT  => prev

/-- One press of the RIGHT arrow key (src lines 431-433):
`AdvectionType((value + 1) % COUNT)`. -/
def advanceRight (t : AdvectionType) : AdvectionType :=
  AdvectionType.fromValue ((t.value + 1) % AdvectionType.COUNT.value)

/-- One press of the LEFT arrow key (src lines 417-421): wrap `0` to
`COUNT - 1`, otherwise decrement. -/
def advanceLeft (t : AdvectionType) : AdvectionType :=
  if t.value = 0 then AdvectionType.fromValue (AdvectionType.COUNT.value - 1)
  else AdvectionType.fromValue (t.value - 1)

/-- Claim C1: each of the 7 named presets sets the six advection
coefficients to exactly the literal 6-tuple of spec §4.1; the boolean
`collision` column "on"/"off" is the literal `1.0`/`0.0` (the code treats
the flag as on when it is `> 0`, src line 297).  The result does not
depend on the previous values of the globals. -/
theorem preset_table_fidelity (prev : AdvParams) :
    SetupAdvection .PIC prev = ⟨0.0, 0.0, 0.0, 0.0, 0.0, 0.0⟩ ∧
    SetupAdvection .FLIP prev = ⟨0.99, 0.0, 0.0, 0.0, 0.0, 0.0⟩ ∧
    SetupAdvection .NFLIP prev = ⟨0.97, 1.0, 1.0, 0.0, 0.0, 0.0⟩ ∧
    SetupAdvection .SFLIP prev = ⟨0.99, 0.0, 1.0, 0.0, 0.0, 1.0⟩ ∧
    SetupAdvection .APIC prev = ⟨0.0, 0.0, 0.0, 1.0, 1.0, 0.0⟩ ∧
    SetupAdvection .AFLIP prev = ⟨0.99, 0.0, 0.0, 1.0, 1.0, 0.0⟩ ∧
    SetupAdvection .ASFLIP prev = ⟨0.99, 0.0, 1.0, 1.0, 1.0, 1.0⟩ :=
  ⟨rfl, rfl, rfl, rfl, rfl, rfl, rfl⟩

/-- Claim C8: scheme cycling is closed modulo 7: from each of the 7 named
presets, seven RIGHT presses return to the same preset, and seven LEFT
presses return to the same preset. -/
theorem cycling_closure :
    (advanceRight^[7] .PIC = .PIC ∧ advanceRight^[7] .FLIP = .FLIP ∧
     advanceRight^[7] .NFLIP = .NFLIP ∧ advanceRight^[7] .SFLIP = .SFLIP ∧
     advanceRight^[7] .APIC = .APIC ∧ advanceRight^[7] .AFLIP = .AFLIP ∧
     advanceRight^[7] .ASFLIP = .ASFLIP) ∧
    (advanceLeft^[7] .PIC = .PIC ∧ advanceLeft^[7] .FLIP = .FLIP ∧
     advanceLeft^[7] .NFLIP = .NFLIP ∧ advanceLeft^[7] .SFLIP = .SFLIP ∧
     advanceLeft^[7] .APIC = .APIC ∧ advanceLeft^[7] .AFLIP = .AFLIP ∧
     advanceLeft^[7] .ASFLIP = .ASFLIP) := by
  decide

/-! ## Simulation constants (src lines 89-129), over `ℝ` -/

noncomputable section

def n_grid : ℤ := 96

def dx : ℝ := 1 / 96

def inv_dx : ℝ := 96

def dt : ℝ := 1e-4

def frame_dt : ℝ := 4e-3

def p_vol : ℝ := (dx * 0.5) ^ 2

def p_rho : ℝ := 1400

def p_mass : ℝ := p_vol * p_rho

def E : ℝ := 5e5

def nu : ℝ := 0.3

def kappa_0 : ℝ := E / (3 * (1 - nu * 2))

def mu_0 : ℝ := E / (2 * (1 + nu))

def friction_angle : ℝ := 40.0

def sin_phi : ℝ := Real.sin (friction_angle / 180.0 * 3.141592653)

def material_friction : ℝ := 1.633 * sin_phi / (3.0 - sin_phi)

def volume_recovery_rate : ℝ := 0.5

def capsule_radius : ℝ := 0.15

def capsule_half_length : ℝ := 0.05

def capsule_angular_vel : ℝ := 80.0

def capsule_friction : ℝ := 1 - Real.exp (-0.4332 * dt / (dx * dx))

def ground_friction : ℝ := 1 - Real.exp (-0.1394 * dt / (dx * dx))

def side_friction : ℝ := 0.0

/-! ## Claim C3: per-particle flip position adjustment resolution

In the G2P phase (src lines 311-333), when `flip_velocity_adjustment > 0`
the per-particle `flip_pos_adj` starts at `param_flip_pos_adj_max`; the
contact gate (entered only when `flip_pos_adj > 0` and particle collision
is on) forces it to `0` when the particle is inside the capsule with
relative velocity into the solid; the volumetric gate then overwrites it
with `param_flip_pos_adj_min`, but only under the guard
`param_flip_pos_adj_min < flip_pos_adj`.  The two geometric tests are
abstracted as booleans: `contact` stands for `phi < 0 ∧ 0 < dotnv`
(lines 320-328 evaluated at the particle) and `vol` stands for
`log (max 1e-15 J) + trace new_C * dt < -0.001` (lines 330-333). -/

def resolveFlipPosAdj (pos_adj_max pos_adj_min : ℝ)
    (part_col contact vol : Bool) : ℝ :=
  let a := if 0 < pos_adj_max ∧ part_col ∧ contact then 0 else pos_adj_max
  if pos_adj_min < a ∧ vol then pos_adj_min else a

/-- Claim C3: with preset-range parameters (`0 ≤ min ≤ max`, true of all
7 presets), the resolved per-particle flip position adjustment equals the
minimum of the effect of contact gating alone (`0` if gated, else `max`)
and the effect of volumetric gating alone (`min` if gated, else `max`);
moreover the volumetric gate never raises the value produced by the
contact-gating stage. -/
theorem flip_pos_adjustment_resolution (mx mn : ℝ) (part_col contact vol : Bool)
    (h0 : 0 ≤ mn) (h1 : mn ≤ mx) :
    resolveFlipPosAdj mx mn part_col contact vol
        = min (if part_col ∧ contact then 0 else mx)
              (if vol then mn else mx) ∧
    resolveFlipPosAdj mx mn part_col contact vol
        ≤ (if 0 < mx ∧ part_col ∧ contact then 0 else mx) := by
  unfold resolveFlipPosAdj
  rcases part_col with _ | _ <;> rcases contact with _ | _ <;>
    rcases vol with _ | _ <;>
    refine ⟨?_, ?_⟩ <;>
    simp [min_def] <;>
    (try split_ifs) <;>
    linarith

/-- Witness for C3 at `min = 0`, `max = 1`, all gates active: the resolved
value is `min (0) (0) = 0` and does not exceed the contact-gated stage. -/
theorem flip_pos_adjustment_resolution_witness :
    resolveFlipPosAdj 1 0 true true true
        = min (if true ∧ true then (0:ℝ) else 1) (if true then (0:ℝ) else 1) ∧
    resolveFlipPosAdj 1 0 true true true
        ≤ (if (0:ℝ) < 1 ∧ true ∧ true then 0 else 1) :=
  flip_pos_adjustment_resolution 1 0 true true true (by norm_num) (by norm_num)

/-! ## `ProjectDruckerPrager` (src lines 168-198)

The function mutates the diagonal of `S` (singular values `s0, s1`) and
the scalar `Jp`; we model it as `(s0, s1, Jp) ↦ (s0', s1', Jp')`.
Note the order of operations in the source: `JSe = S[0,0] * S[1,1]` is
read BEFORE the clamp-and-scale loop, so the determinant fed into the
volume-recovery power is that of the incoming Σ, not of the
clamped, `Jp`-scaled Σ. -/

def dpYieldThreshold (c0 c1 : ℝ) : ℝ :=
  let Je := max 1e-6 (c0 * c1);
  -material_friction * kappa_0 * 0.5 * (Je * Je - 1.0)

def dpDevMag (c0 c1 : ℝ) : ℝ :=
  let Je := max 1e-6 (c0 * c1)
  let tb2 := (c0 * c0 + c1 * c1) / 2.0
  let dev0 := c0 * c0 - tb2
  let dev1 := c1 * c1 - tb2
  mu_0 * Real.sqrt ((dev0 * dev0 + dev1 * dev1) / Je)

def ProjectDruckerPrager (s0 s1 Jp : ℝ) : ℝ × ℝ × ℝ :=
  let JSe := s0 * s1
  let c0 := max 1e-6 |s0 * Jp|
  let c1 := max 1e-6 |s1 * Jp|
  if 2.0 ≤ c0 + c1 then
    (1, 1, Jp * (max 1e-6 JSe) ^ volume_recovery_rate)
  else
    let yt := dpYieldThreshold c0 c1
    let mndb := dpDevMag c0 c1
    if yt < mndb then
      let tb2 := (c0 * c0 + c1 * c1) / 2.0
      let dev0 := c0 * c0 - tb2
      let dev1 := c1 * c1 - tb2
      let det_b := (c0 * c0) * (c1 * c1)
      let det_dev_b := dev0 * dev1
      let l2 := yt / max 1e-6 mndb
      let l1 := Real.sqrt (max 0.0 (det_b - l2 * l2 * det_dev_b))
      (Real.sqrt |l1 + l2 * dev0|, Real.sqrt |l1 + l2 * dev1|, 1)
    else
      (c0, c1, 1)

/-- Counterexample to claim C4 as stated.  At the concrete input
`Σ = diag(3, 1)`, `Jp_prev = 2`, the clamped `Jp`-scaled Σ is
`diag(6, 2)` with trace `8 ≥ 2` and determinant `12`, so the claim
predicts `Jp_new = 2 · 12^0.5`; the code instead uses the determinant of
the raw incoming Σ (read before clamping), giving `Jp_new = 2 · 3^0.5`. -/
theorem dp_trace_branch_counterexample :
    (2.0 ≤ max 1e-6 |(3:ℝ) * 2| + max 1e-6 |(1:ℝ) * 2|) ∧
    ProjectDruckerPrager 3 1 2
      ≠ (1, 1, 2 * ((12:ℝ) ^ volume_recovery_rate)) := by
  have habs3 : |(3:ℝ) * 2| = 6 := by norm_num
  have habs1 : |(1:ℝ) * 2| = 2 := by norm_num
  have hmax3 : max (1e-6:ℝ) |(3:ℝ) * 2| = 6 := by rw [habs3]; norm_num
  have hmax1 : max (1e-6:ℝ) |(1:ℝ) * 2| = 2 := by rw [habs1]; norm_num
  refine ⟨by rw [hmax3, hmax1]; norm_num, ?_⟩
  have hval : ProjectDruckerPrager 3 1 2
      = (1, 1, 2 * ((3:ℝ) ^ volume_recovery_rate)) := by
    simp only [ProjectDruckerPrager, hmax3, hmax1]
    rw [if_pos (by norm_num)]
    norm_num [max_eq_right, show max (1e-6:ℝ) 3 = 3 from by norm_num]
  rw [hval]
  intro hcontra
  have h3 := congrArg (fun t : ℝ × ℝ × ℝ => t.2.2) hcontra
  simp only at h3
  have hlt : (3:ℝ) ^ volume_recovery_rate < (12:ℝ) ^ volume_recovery_rate := by
    apply Real.rpow_lt_rpow (by norm_num) (by norm_num)
    rw [volume_recovery_rate]; norm_num
  nlinarith [hlt]

/-- Claim C4, amended: when the clamped `Jp`-scaled singular values have
trace `≥ 2`, the projection resets Σ to the identity and sets
`Jp_new = Jp_prev · (max(1e-6, det Σ_in))^0.5` where `Σ_in` is the RAW
incoming Σ, before the clamp-and-scale step (the code reads `JSe`
at line 170, before the loop at lines 171-172). -/
theorem dp_trace_branch_amended (s0 s1 Jp : ℝ)
    (h : 2.0 ≤ max 1e-6 |s0 * Jp| + max 1e-6 |s1 * Jp|) :
    ProjectDruckerPrager s0 s1 Jp
      = (1, 1, Jp * (max 1e-6 (s0 * s1)) ^ volume_recovery_rate) := by
  simp only [ProjectDruckerPrager]
  rw [if_pos h]

/-- Witness for the amended C4 at `Σ = diag(3, 1)`, `Jp_prev = 2`. -/
theorem dp_trace_branch_amended_witness :
    (2.0 ≤ max 1e-6 |(3:ℝ) * 2| + max 1e-6 |(1:ℝ) * 2|) ∧
    ProjectDruckerPrager 3 1 2
      = (1, 1, 2 * (max 1e-6 ((3:ℝ) * 1)) ^ volume_recovery_rate) := by
  have h : (2.0 ≤ max 1e-6 |(3:ℝ) * 2| + max 1e-6 |(1:ℝ) * 2|) := by
    have habs3 : |(3:ℝ) * 2| = 6 := by norm_num
    have habs1 : |(1:ℝ) * 2| = 2 := by norm_num
    rw [habs3, habs1]; norm_num
  exact ⟨h, dp_trace_branch_amended 3 1 2 h⟩

/-- Fixed-point lemma for the admissible elastic branch: if the diagonal
is at or above the `1e-6` floor, the trace is below `2`, and the
deviatoric magnitude does not exceed the yield threshold, the projection
(at `Jp = 1`, the value every elastic-branch application produces)
returns its input unchanged. -/
theorem dp_fixed_point (a b : ℝ) (ha : (1e-6:ℝ) ≤ a) (hb : (1e-6:ℝ) ≤ b)
    (htr : a + b < 2) (hy : dpDevMag a b ≤ dpYieldThreshold a b) :
    ProjectDruckerPrager a b 1 = (a, b, 1) := by
  have ha0 : (0:ℝ) ≤ a := le_trans (by norm_num) ha
  have hb0 : (0:ℝ) ≤ b := le_trans (by norm_num) hb
  have hc0 : max (1e-6:ℝ) |a * 1| = a := by
    rw [mul_one, abs_of_nonneg ha0]; exact max_eq_right ha
  have hc1 : max (1e-6:ℝ) |b * 1| = b := by
    rw [mul_one, abs_of_nonneg hb0]; exact max_eq_right hb
  simp only [ProjectDruckerPrager, hc0, hc1]
  rw [if_neg (by linarith : ¬ (2.0:ℝ) ≤ a + b), if_neg (not_lt.mpr hy)]

/-- Claim C5: Drucker-Prager idempotence on admissible states.  For
`Σ = diag(a, b)` with its diagonal at or above the code's `1e-6`
singular-value floor, `trace Σ < 2` and deviatoric magnitude within the
yield threshold (the admissibility tests of the elastic branch), a second
application of the projection — fed the `Jp` produced by the first —
changes nothing. -/
theorem dp_idempotence (a b : ℝ) (ha : (1e-6:ℝ) ≤ a) (hb : (1e-6:ℝ) ≤ b)
    (htr : a + b < 2) (hy : dpDevMag a b ≤ dpYieldThreshold a b) :
    ProjectDruckerPrager (ProjectDruckerPrager a b 1).1
        (ProjectDruckerPrager a b 1).2.1 (ProjectDruckerPrager a b 1).2.2
      = ProjectDruckerPrager a b 1 := by
  rw [dp_fixed_point a b ha hb htr hy]
  show ProjectDruckerPrager a b 1 = (a, b, 1)
  exact dp_fixed_point a b ha hb htr hy

/-- The admissibility facts at `Σ = diag(0.9, 0.9)`: zero deviator,
positive yield threshold. -/
theorem dp_admissible_at_09 : dpDevMag 0.9 0.9 ≤ dpYieldThreshold 0.9 0.9 := by
  have hsin0 : 0 ≤ sin_phi := by
    rw [sin_phi]
    apply Real.sin_nonneg_of_nonneg_of_le_pi
    · rw [friction_angle]; norm_num
    · calc friction_angle / 180.0 * 3.141592653 ≤ 3 := by
            rw [friction_angle]; norm_num
        _ ≤ Real.pi := Real.pi_gt_three.le
  have hsin1 : sin_phi ≤ 1 := Real.sin_le_one _
  have hmf : 0 ≤ material_friction := by
    rw [material_friction]
    apply div_nonneg (by linarith) (by linarith)
  have hk : 0 < kappa_0 := by rw [kappa_0, E, nu]; norm_num
  have hdev : dpDevMag 0.9 0.9 = 0 := by
    simp only [dpDevMag]
    norm_num
  have hje : max (1e-6:ℝ) ((0.9:ℝ) * 0.9) = 0.81 := by norm_num
  have hyt : dpYieldThreshold 0.9 0.9
      = -material_friction * kappa_0 * 0.5 * (0.81 * 0.81 - 1.0) := by
    simp only [dpYieldThreshold, hje]
  rw [hdev, hyt]
  nlinarith [mul_nonneg hmf hk.le]

/-- Witness for C5 at `Σ = diag(0.9, 0.9)`, where the state is strictly
inside the yield surface. -/
theorem dp_idempotence_witness :
    ((1e-6:ℝ) ≤ 0.9) ∧ ((0.9:ℝ) + 0.9 < 2) ∧
    dpDevMag 0.9 0.9 ≤ dpYieldThreshold 0.9 0.9 ∧
    ProjectDruckerPrager (ProjectDruckerPrager 0.9 0.9 1).1
        (ProjectDruckerPrager 0.9 0.9 1).2.1 (ProjectDruckerPrager 0.9 0.9 1).2.2
      = ProjectDruckerPrager 0.9 0.9 1 :=
  ⟨by norm_num, by norm_num, dp_admissible_at_09,
    dp_idempotence 0.9 0.9 (by norm_num) (by norm_num) (by norm_num)
      dp_admissible_at_09⟩

/-! ## Capsule signed distance and normal (src lines 142-166) -/

/-- Euclidean norm of a 2-vector (`tmp.norm()` in taichi). -/
def norm2 (v : ℝ × ℝ) : ℝ := Real.sqrt (v.1 ^ 2 + v.2 ^ 2)

/-- Model of `SdfCapsule` (src lines 148-153), the capsule signed
distance in the collider's local frame. -/
def SdfCapsule (X : ℝ × ℝ) (radius half_length : ℝ) : ℝ :=
  let alpha := min (max ((X.1 / half_length + 1.0) * 0.5) 0.0) 1.0
  norm2 (X.1 + (1.0 - 2.0 * alpha) * half_length, X.2) - radius

/-- Model of `SdfNormalCapsule` (src lines 155-166): normalize the vector from the
clamped segment point with a `1e-12` floor on its length, then zero the
local x-component whenever the unclamped interpolation parameter lies in
`[0, 1]`. -/
def SdfNormalCapsule (X : ℝ × ℝ) (radius half_length : ℝ) : ℝ × ℝ :=
  let unclamped_alpha := (X.1 / half_length + 1.0) * 0.5
  let alpha := min (max unclamped_alpha 0.0) 1.0
  let n0 := X.1 + (1.0 - 2.0 * alpha) * half_length
  let ltmp := max 1e-12 (norm2 (n0, X.2))
  if 0.0 ≤ unclamped_alpha ∧ unclamped_alpha ≤ 1.0 then (0, X.2 / ltmp)
  else (n0 / ltmp, X.2 / ltmp)

/-- Distance from a local-frame point to its nearest point on the
capsule's central segment (the segment from `(-half_length, 0)` to
`(half_length, 0)`); the nearest point is the clamped projection
`(clamp(X₁, -half_length, half_length), 0)`. -/
def distToSegment (X : ℝ × ℝ) (half_length : ℝ) : ℝ :=
  norm2 (X.1 - min (max X.1 (-half_length)) half_length, X.2)

/-- The clamped-interpolation offset used by both capsule queries equals
the vector from the clamped segment projection. -/
theorem sdfTmp_eq_clamp (x hl : ℝ) (hhl : 0 < hl) :
    x + (1.0 - 2.0 * min (max ((x / hl + 1.0) * 0.5) 0.0) 1.0) * hl
      = x - min (max x (-hl)) hl := by
  rcases le_or_lt x (-hl) with h | h
  · have hu : (x / hl + 1.0) * 0.5 ≤ 0.0 := by
      have hx : x / hl ≤ -1 := by
        rw [div_le_iff hhl]; linarith
      linarith
    rw [max_eq_right hu, min_eq_left (by norm_num : (0.0:ℝ) ≤ 1.0),
        max_eq_right h, min_eq_left (by linarith : -hl ≤ hl)]
    norm_num
  · rcases le_or_lt hl x with h2 | h2
    · have hx : (1:ℝ) ≤ x / hl := by
        rw [le_div_iff hhl]; linarith
      have hu : (1.0:ℝ) ≤ (x / hl + 1.0) * 0.5 := by linarith
      rw [max_eq_left (by linarith : (0.0:ℝ) ≤ (x / hl + 1.0) * 0.5),
          min_eq_right hu, max_eq_left (by linarith : -hl ≤ x), min_eq_right h2]
      ring
    · have hxlo : (-1:ℝ) ≤ x / hl := by
        rw [le_div_iff hhl]; linarith
      have hxhi : x / hl ≤ 1 := by
        rw [div_le_iff hhl]; linarith
      rw [max_eq_left (by linarith : (0.0:ℝ) ≤ (x / hl + 1.0) * 0.5),
          min_eq_left (by linarith : (x / hl + 1.0) * 0.5 ≤ 1.0),
          max_eq_left (by linarith : -hl ≤ x), min_eq_left h2.le]
      have : x + (1.0 - 2.0 * ((x / hl + 1.0) * 0.5)) * hl = x - (x / hl) * hl := by
        ring
      rw [this, div_mul_cancel₀ x (ne_of_gt hhl)]

/-- The capsule signed distance is exactly the distance to the nearest
segment point minus the radius. -/
theorem SdfCapsule_eq_dist (X : ℝ × ℝ) (r hl : ℝ) (hhl : 0 < hl) :
    SdfCapsule X r hl = distToSegment X hl - r := by
  simp only [SdfCapsule, distToSegment]
  rw [sdfTmp_eq_clamp X.1 hl hhl]

/-- The clamped projection in `distToSegment` is genuinely the nearest
point of the central segment: for every interpolation parameter
`β ∈ [0, 1]` (segment point `((2β − 1)·hl, 0)`), the clamped point is at
least as close. -/
theorem distToSegment_is_nearest (X : ℝ × ℝ) (hl : ℝ) (hhl : 0 < hl)
    (β : ℝ) (hβ0 : 0 ≤ β) (hβ1 : β ≤ 1) :
    distToSegment X hl ≤ norm2 (X.1 - (2 * β - 1) * hl, X.2) := by
  have ht1 : -hl ≤ (2 * β - 1) * hl := by nlinarith
  have ht2 : (2 * β - 1) * hl ≤ hl := by nlinarith
  have hsq : (X.1 - min (max X.1 (-hl)) hl) ^ 2 ≤ (X.1 - (2 * β - 1) * hl) ^ 2 := by
    rcases le_or_lt X.1 (-hl) with h | h
    · rw [max_eq_right h, min_eq_left (by linarith)]
      nlinarith
    · rcases le_or_lt hl X.1 with h2 | h2
      · rw [max_eq_left (by linarith), min_eq_right h2]
        nlinarith
      · rw [max_eq_left (by linarith), min_eq_left h2.le]
        nlinarith
  have hdef1 : distToSegment X hl
      = Real.sqrt ((X.1 - min (max X.1 (-hl)) hl) ^ 2 + X.2 ^ 2) := rfl
  have hdef2 : norm2 (X.1 - (2 * β - 1) * hl, X.2)
      = Real.sqrt ((X.1 - (2 * β - 1) * hl) ^ 2 + X.2 ^ 2) := rfl
  rw [hdef1, hdef2]
  exact Real.sqrt_le_sqrt (by linarith [hsq])

/-- Norm of a componentwise-divided 2-vector. -/
theorem norm2_div_pos (a b c : ℝ) (hc : 0 < c) :
    norm2 (a / c, b / c) = norm2 (a, b) / c := by
  simp only [norm2]
  rw [div_pow, div_pow, div_add_div_same, Real.sqrt_div (by positivity) _,
    Real.sqrt_sq hc.le]

/-- Norm of `(0, y)`. -/
theorem norm2_zero_left (y : ℝ) : norm2 (0, y) = |y| := by
  simp only [norm2]
  rw [show (0:ℝ) ^ 2 + y ^ 2 = y ^ 2 by ring, Real.sqrt_sq_eq_abs]

/-- The normal query returns a unit vector whenever the point is at least
`1e-12` away from the central segment. -/
theorem SdfNormalCapsule_unit (X : ℝ × ℝ) (r hl : ℝ) (hhl : 0 < hl)
    (hd : (1e-12 : ℝ) ≤ distToSegment X hl) :
    norm2 (SdfNormalCapsule X r hl) = 1 := by
  have hd0 : 0 < distToSegment X hl := lt_of_lt_of_le (by norm_num) hd
  have ht0 : X.1 + (1.0 - 2.0 * min (max ((X.1 / hl + 1.0) * 0.5) 0.0) 1.0) * hl
      = X.1 - min (max X.1 (-hl)) hl := sdfTmp_eq_clamp X.1 hl hhl
  have hnd : norm2 (X.1 + (1.0 - 2.0 * min (max ((X.1 / hl + 1.0) * 0.5) 0.0) 1.0) * hl, X.2)
      = distToSegment X hl := by
    rw [ht0]; rfl
  have hltmp : max (1e-12:ℝ)
      (norm2 (X.1 + (1.0 - 2.0 * min (max ((X.1 / hl + 1.0) * 0.5) 0.0) 1.0) * hl, X.2))
      = distToSegment X hl := by
    rw [hnd]; exact max_eq_right hd
  simp only [SdfNormalCapsule, hltmp]
  by_cases hc : (0.0:ℝ) ≤ (X.1 / hl + 1.0) * 0.5 ∧ (X.1 / hl + 1.0) * 0.5 ≤ 1.0
  · rw [if_pos hc]
    have hxlo : -hl ≤ X.1 := by
      have := hc.1
      have hdiv : (-1:ℝ) ≤ X.1 / hl := by linarith
      rw [le_div_iff₀ hhl] at hdiv; linarith
    have hxhi : X.1 ≤ hl := by
      have := hc.2
      have hdiv : X.1 / hl ≤ 1 := by linarith
      rw [div_le_iff₀ hhl] at hdiv; linarith
    have hclamp : min (max X.1 (-hl)) hl = X.1 := by
      rw [max_eq_left hxlo, min_eq_left hxhi]
    have habs : |X.2| = distToSegment X hl := by
      have : distToSegment X hl = norm2 (X.1 - X.1, X.2) := by
        simp only [distToSegment, hclamp]
      rw [this, sub_self, norm2_zero_left]
    rw [norm2_zero_left, abs_div, abs_of_pos hd0, habs,
      div_self hd0.ne']
  · rw [if_neg hc]
    rw [norm2_div_pos _ _ _ hd0, hnd, div_self hd0.ne']

/-- Claim C6, amended.  For the capsule queries in the collider's local
frame (positive half-length): (i) a point strictly farther than the
radius from its nearest segment point has positive signed distance;
(ii) a point exactly at distance radius has signed distance exactly 0;
(iii) the outward normal has unit length at every point at distance at
least `1e-12` from the central segment.  (The original claim's "except
the exact segment endpoints" is false: the normal degenerates on the
whole central segment, see the counterexample.) -/
theorem sdf_sign_and_normal (X : ℝ × ℝ) (r hl : ℝ) (hhl : 0 < hl) :
    (r < distToSegment X hl → 0 < SdfCapsule X r hl) ∧
    (distToSegment X hl = r → SdfCapsule X r hl = 0) ∧
    ((1e-12 : ℝ) ≤ distToSegment X hl → norm2 (SdfNormalCapsule X r hl) = 1) := by
  refine ⟨?_, ?_, ?_⟩
  · intro h
    rw [SdfCapsule_eq_dist X r hl hhl]
    linarith
  · intro h
    rw [SdfCapsule_eq_dist X r hl hhl, h, sub_self]
  · exact SdfNormalCapsule_unit X r hl hhl

/-- Counterexample to claim C6 as stated: at the local-frame point
`(0, 0)` — the capsule's centre, which is not a segment endpoint
(endpoints are `(±half_length, 0)` with `half_length = 0.05`) — the
returned normal is the zero vector, whose length `0` is not within any
tolerance of `1`. -/
theorem sdf_normal_counterexample :
    norm2 (SdfNormalCapsule (0, 0) capsule_radius capsule_half_length) = 0 ∧
    norm2 (SdfNormalCapsule (0, 0) capsule_radius capsule_half_length) ≠ 1 ∧
    ((0:ℝ), (0:ℝ)) ≠ (capsule_half_length, (0:ℝ)) ∧
    ((0:ℝ), (0:ℝ)) ≠ (-capsule_half_length, (0:ℝ)) := by
  have hz : norm2 (SdfNormalCapsule (0, 0) capsule_radius capsule_half_length) = 0 := by
    simp only [SdfNormalCapsule, capsule_half_length, norm2]
    rw [if_pos (by norm_num)]
    norm_num
  refine ⟨hz, by rw [hz]; norm_num, ?_, ?_⟩
  · intro hcontra
    have h1 := congrArg Prod.fst hcontra
    simp only [capsule_half_length] at h1
    norm_num at h1
  · intro hcontra
    have h1 := congrArg Prod.fst hcontra
    simp only [capsule_half_length] at h1
    norm_num at h1

/-- Witness for the amended C6 at the local point `(0, 0.2)` with the
source capsule dimensions. -/
theorem sdf_sign_and_normal_witness :
    (0:ℝ) < capsule_half_length ∧
    ((capsule_radius < distToSegment (0, 0.2) capsule_half_length →
        0 < SdfCapsule (0, 0.2) capsule_radius capsule_half_length) ∧
     (distToSegment (0, 0.2) capsule_half_length = capsule_radius →
        SdfCapsule (0, 0.2) capsule_radius capsule_half_length = 0) ∧
     ((1e-12 : ℝ) ≤ distToSegment (0, 0.2) capsule_half_length →
        norm2 (SdfNormalCapsule (0, 0.2) capsule_radius capsule_half_length) = 1)) :=
  ⟨by rw [capsule_half_length]; norm_num,
    sdf_sign_and_normal (0, 0.2) capsule_radius capsule_half_length
      (by rw [capsule_half_length]; norm_num)⟩

/-! ## 2×2 matrices and world-to-material transform -/

structure Mat2 where
  a : ℝ
  b : ℝ
  c : ℝ
  d : ℝ

def Mat2.mulVec (M : Mat2) (v : ℝ × ℝ) : ℝ × ℝ :=
  (M.a * v.1 + M.b * v.2, M.c * v.1 + M.d * v.2)

def Mat2.transpose (M : Mat2) : Mat2 := ⟨M.a, M.c, M.b, M.d⟩

instance : Zero Mat2 := ⟨⟨0, 0, 0, 0⟩⟩

instance : Add Mat2 := ⟨fun M N => ⟨M.a + N.a, M.b + N.b, M.c + N.c, M.d + N.d⟩⟩

instance : SMul ℝ Mat2 := ⟨fun r M => ⟨r * M.a, r * M.b, r * M.c, r * M.d⟩⟩

/-- The capsule rotation matrix (src lines 277-279). -/
def rotMat (θ : ℝ) : Mat2 :=
  ⟨Real.cos θ, -Real.sin θ, Real.sin θ, Real.cos θ⟩

/-- Model of `WorldSpaceToMaterialSpace` (src lines 142-146). -/
def WorldSpaceToMaterialSpace (x translation : ℝ × ℝ) (rotation : Mat2) : ℝ × ℝ :=
  rotation.transpose.mulVec (x - translation)

/-! ## P2G scatter (src lines 229-251)

Taichi's float→int `cast` truncates toward zero; `fcast` models it. -/

def fcast (r : ℝ) : ℤ := if r < 0 then -⌊-r⌋ else ⌊r⌋

def pbase (xp : ℝ × ℝ) : ℤ × ℤ :=
  (fcast (xp.1 * inv_dx - 0.5), fcast (xp.2 * inv_dx - 0.5))

def pfx (xp : ℝ × ℝ) : ℝ × ℝ :=
  (xp.1 * inv_dx - ((pbase xp).1 : ℝ), xp.2 * inv_dx - ((pbase xp).2 : ℝ))

/-- The quadratic B-spline weights (src line 233). -/
def wq (f : ℝ) (i : Fin 3) : ℝ :=
  if i.val = 0 then 0.5 * (1.5 - f) ^ 2
  else if i.val = 1 then 0.75 - (f - 1.0) ^ 2
  else 0.5 * (f - 0.5) ^ 2

def wAt (xp : ℝ × ℝ) (o : Fin 3 × Fin 3) : ℝ :=
  wq (pfx xp).1 o.1 * wq (pfx xp).2 o.2

def nodeOf (xp : ℝ × ℝ) (o : Fin 3 × Fin 3) : ℤ × ℤ :=
  ((pbase xp).1 + (o.1.val : ℤ), (pbase xp).2 + (o.2.val : ℤ))

/-- Offset `dpos = (offset.cast(float) - fx) * dx` (src line 247). -/
def dposAt (xp : ℝ × ℝ) (o : Fin 3 × Fin 3) : ℝ × ℝ :=
  (((o.1.val : ℝ) - (pfx xp).1) * dx, ((o.2.val : ℝ) - (pfx xp).2) * dx)

/-- Per-particle state entering the scatter loop.  `C` is the affine
velocity matrix; `stress` is the matrix returned by
`NeoHookeanElasticity` at line 241, before the line-242 scaling (the
constitutive pipeline — deformation update, SVD, plastic projection —
only reaches the scatter through this matrix, so theorems quantify over
it). -/
structure PState where
  pos : ℝ × ℝ
  vel : ℝ × ℝ
  C : Mat2
  stress : Mat2

/-- Coefficient `rc0 = (apic_str + apic_rot) * 0.5` (src line 227). -/
def rc0 (astr arot : ℝ) : ℝ := (astr + arot) * 0.5

/-- Coefficient `rc1 = (apic_str - apic_rot) * 0.5` (src line 228). -/
def rc1 (astr arot : ℝ) : ℝ := (astr - arot) * 0.5

/-- Matrix `affine_without_stress = p_mass * (C * rc0 + Cᵗ * rc1)`
(src line 243). -/
def affineWithoutStress (astr arot : ℝ) (p : PState) : Mat2 :=
  p_mass • (rc0 astr arot • p.C + rc1 astr arot • p.C.transpose)

/-- Matrix `affine = (-dt * p_vol * 4 * inv_dx * inv_dx) * stress
+ affine_without_stress` (src lines 242-244). -/
def affineTotal (astr arot : ℝ) (p : PState) : Mat2 :=
  (-dt * p_vol * 4 * inv_dx * inv_dx) • p.stress + affineWithoutStress astr arot p

/-- Mass scattered by one particle into one node (src line 251). -/
def massContrib (xp : ℝ × ℝ) (node : ℤ × ℤ) : ℝ :=
  ∑ o : Fin 3 × Fin 3, if nodeOf xp o = node then wAt xp o * p_mass else 0

/-- Momentum-with-stress scattered by one particle into one node
(src line 249). -/
def vContrib (astr arot : ℝ) (p : PState) (node : ℤ × ℤ) : ℝ × ℝ :=
  ∑ o : Fin 3 × Fin 3,
    if nodeOf p.pos o = node then
      wAt p.pos o • (p_mass • p.vel + (affineTotal astr arot p).mulVec (dposAt p.pos o))
    else 0

/-- Momentum-without-stress scattered by one particle into one node
(src line 250). -/
def v0Contrib (astr arot : ℝ) (p : PState) (node : ℤ × ℤ) : ℝ × ℝ :=
  ∑ o : Fin 3 × Fin 3,
    if nodeOf p.pos o = node then
      wAt p.pos o • (p_mass • p.vel + (affineWithoutStress astr arot p).mulVec (dposAt p.pos o))
    else 0

/-- Accumulated node mass after P2G (the grid is cleared at src lines
219-222, so the value is the plain sum over particles). -/
def gridM (ps : List PState) (node : ℤ × ℤ) : ℝ :=
  (ps.map fun p => massContrib p.pos node).sum

def gridV (astr arot : ℝ) (ps : List PState) (node : ℤ × ℤ) : ℝ × ℝ :=
  (ps.map fun p => vContrib astr arot p node).sum

def gridV0 (astr arot : ℝ) (ps : List PState) (node : ℤ × ℤ) : ℝ × ℝ :=
  (ps.map fun p => v0Contrib astr arot p node).sum

/-! ## Grid update (src lines 254-291) -/

def nodePos (node : ℤ × ℤ) : ℝ × ℝ := ((node.1 : ℝ) * dx, (node.2 : ℝ) * dx)

def capsuleLocal (capRot : ℝ) (capTrans : ℝ × ℝ) (node : ℤ × ℤ) : ℝ × ℝ :=
  WorldSpaceToMaterialSpace (nodePos node) capTrans (rotMat capRot)

def capsulePhi (capRot : ℝ) (capTrans : ℝ × ℝ) (node : ℤ × ℤ) : ℝ :=
  SdfCapsule (capsuleLocal capRot capTrans node) capsule_radius capsule_half_length

/-- Rigid surface velocity of the capsule at a world point (src lines
284-286). -/
def solidVel (capTrans capVel : ℝ × ℝ) (npos : ℝ × ℝ) : ℝ × ℝ :=
  (capVel.1 - capsule_angular_vel * (npos.2 - capTrans.2),
   capVel.2 + capsule_angular_vel * (npos.1 - capTrans.1))

/-- One node's grid-update phase (src lines 254-291): normalization and
gravity, the four domain boundary conditions applied in program order,
then the capsule collision response; a node with non-positive mass is
left untouched. -/
def updateNode (node : ℤ × ℤ) (m : ℝ) (gv gv0 : ℝ × ℝ) (grav : ℝ × ℝ)
    (capRot : ℝ) (capTrans capVel : ℝ × ℝ) : (ℝ × ℝ) × (ℝ × ℝ) :=
  if 0 < m then
    let v1 := (1 / m) • gv + dt • grav
    let w0 := (1 / m) • gv0
    let v2 := if node.1 < 3 ∧ v1.1 < 0 then (0, v1.2 * (1.0 - side_friction)) else v1
    let v3 := if n_grid - 3 < node.1 ∧ 0 < v2.1 then (0, v2.2 * (1.0 - side_friction)) else v2
    let v4 := if node.2 < 3 ∧ v3.2 < 0 then (v3.1 * (1.0 - ground_friction), 0) else v3
    let v5 := if n_grid - 3 < node.2 ∧ 0 < v4.2 then (v4.1 * (1.0 - side_friction), 0) else v4
    let v6 :=
      if capsulePhi capRot capTrans node < 0 then
        let n := (rotMat capRot).mulVec
          (SdfNormalCapsule (capsuleLocal capRot capTrans node)
            capsule_radius capsule_half_length)
        let dv := solidVel capTrans capVel (nodePos node) - v5
        let dotnv := n.1 * dv.1 + n.2 * dv.2
        if 0 < dotnv then v5 + capsule_friction • dv + (dotnv * (1.0 - capsule_friction)) • n
        else v5
      else v5
    (v6, w0)
  else (gv, gv0)

/-! ## G2P gather and PIC advection (src lines 298-309, 344-346) -/

def gatherV (gv : ℤ × ℤ → ℝ × ℝ) (xp : ℝ × ℝ) : ℝ × ℝ :=
  ∑ o : Fin 3 × Fin 3, wAt xp o • gv (nodeOf xp o)

def substepGridV (astr arot : ℝ) (ps : List PState) (grav : ℝ × ℝ)
    (capRot : ℝ) (capTrans capVel : ℝ × ℝ) (node : ℤ × ℤ) : ℝ × ℝ :=
  (updateNode node (gridM ps node) (gridV astr arot ps node)
    (gridV0 astr arot ps node) grav capRot capTrans capVel).1

/-- The particle's post-substep velocity in the `flip_velocity_adjustment
= 0` branch (src line 345): `v[p] = new_v`. -/
def picNewVel (astr arot : ℝ) (ps : List PState) (grav : ℝ × ℝ)
    (capRot : ℝ) (capTrans capVel : ℝ × ℝ) (p : PState) : ℝ × ℝ :=
  gatherV (substepGridV astr arot ps grav capRot capTrans capVel) p.pos

/-- The particle's post-substep position in the same branch (src line
346): `x[p] += new_v * dt`. -/
def picNewPos (astr arot : ℝ) (ps : List PState) (grav : ℝ × ℝ)
    (capRot : ℝ) (capTrans capVel : ℝ × ℝ) (p : PState) : ℝ × ℝ :=
  p.pos + dt • picNewVel astr arot ps grav capRot capTrans capVel p

/-! ## Claim C2: mass conservation over the P2G scatter -/

def gridNodes : Finset (ℤ × ℤ) :=
  Finset.Icc 0 (n_grid - 1) ×ˢ Finset.Icc 0 (n_grid - 1)

def totalGridMass (ps : List PState) : ℝ := ∑ node ∈ gridNodes, gridM ps node

/-- A particle whose full 3×3 quadratic B-spline neighborhood lies inside
the grid. -/
def inGridInterior (xp : ℝ × ℝ) : Prop :=
  0 ≤ (pbase xp).1 ∧ (pbase xp).1 + 2 ≤ n_grid - 1 ∧
  0 ≤ (pbase xp).2 ∧ (pbase xp).2 + 2 ≤ n_grid - 1

/-- The three quadratic B-spline weights sum to one, identically in the
fractional coordinate. -/
theorem wq_sum_one (f : ℝ) : wq f 0 + wq f 1 + wq f 2 = 1 := by
  simp only [wq, Fin.val_zero, Fin.val_one, Fin.val_two]
  norm_num
  ring

/-- The 9 neighborhood nodes of one particle are pairwise distinct. -/
theorem nodeOf_inj (xp : ℝ × ℝ) (o o' : Fin 3 × Fin 3) :
    nodeOf xp o = nodeOf xp o' ↔ o = o' := by
  simp only [nodeOf, Prod.mk.injEq, Prod.ext_iff]
  constructor
  · rintro ⟨h1, h2⟩
    have e1 : (o.1.val : ℤ) = o'.1.val := by omega
    have e2 : (o.2.val : ℤ) = o'.2.val := by omega
    exact ⟨Fin.ext (by exact_mod_cast e1), Fin.ext (by exact_mod_cast e2)⟩
  · rintro ⟨h1, h2⟩
    rw [h1, h2]
    exact ⟨rfl, rfl⟩

set_option maxRecDepth 8000

/-- Each in-interior particle deposits exactly `p_mass` over the whole
grid. -/
theorem massContrib_total (xp : ℝ × ℝ) (h : inGridInterior xp) :
    ∑ node ∈ gridNodes, massContrib xp node = p_mass := by
  unfold massContrib
  rw [Finset.sum_comm]
  have hmem : ∀ o : Fin 3 × Fin 3, nodeOf xp o ∈ gridNodes := by
    intro o
    obtain ⟨h1, h2, h3, h4⟩ := h
    have hb1 := o.1.isLt
    have hb2 := o.2.isLt
    simp only [gridNodes, nodeOf, Finset.mem_product, Finset.mem_Icc, n_grid] at *
    omega
  have hone : ∀ o : Fin 3 × Fin 3,
      (∑ node ∈ gridNodes, if nodeOf xp o = node then wAt xp o * p_mass else 0)
        = wAt xp o * p_mass := by
    intro o
    rw [Finset.sum_ite_eq gridNodes (nodeOf xp o) (fun _ => wAt xp o * p_mass),
      if_pos (hmem o)]
  rw [Finset.sum_congr rfl (fun o _ => hone o)]
  simp only [wAt]
  rw [Fintype.sum_prod_type, Fin.sum_univ_three, Fin.sum_univ_three,
    Fin.sum_univ_three, Fin.sum_univ_three]
  have h1 := wq_sum_one (pfx xp).1
  have h2 := wq_sum_one (pfx xp).2
  linear_combination (p_mass * (wq (pfx xp).2 0 + wq (pfx xp).2 1 + wq (pfx xp).2 2)) * h1
    + p_mass * h2

/-- Claim C2: after the P2G scatter, total grid mass equals
`particleCount × particleMass` exactly (over `ℝ`; the claim's
floating-point tolerance becomes exact equality), for every particle
list whose 3×3 neighborhoods are in bounds. -/
theorem mass_conservation (ps : List PState)
    (h : ∀ p ∈ ps, inGridInterior p.pos) :
    totalGridMass ps = (ps.length : ℝ) * p_mass := by
  induction ps with
  | nil => simp [totalGridMass, gridM]
  | cons p ps ih =>
    have hsplit : totalGridMass (p :: ps)
        = (∑ node ∈ gridNodes, massContrib p.pos node) + totalGridMass ps := by
      unfold totalGridMass gridM
      rw [← Finset.sum_add_distrib]
      exact Finset.sum_congr rfl (fun node _ => by simp)
    rw [hsplit, massContrib_total p.pos (h p (by simp)),
      ih (fun q hq => h q (by simp [hq]))]
    simp only [List.length_cons]
    push_cast
    ring

/-- Base-cell computation at the witness position `(33/64, 33/64)`:
`33/64 · 96 − 0.5 = 49`. -/
theorem pbase_at_witness : pbase (33 / 64, 33 / 64) = (49, 49) := by
  have harg : ((33:ℝ) / 64 * inv_dx - 0.5) = ((49:ℤ) : ℝ) := by
    rw [inv_dx]; norm_num
  have hfc : fcast ((33:ℝ) / 64 * inv_dx - 0.5) = 49 := by
    unfold fcast
    rw [if_neg (by rw [harg]; push_cast; norm_num), harg, Int.floor_intCast]
  simp only [pbase]
  rw [Prod.mk.injEq]
  exact ⟨hfc, hfc⟩

/-- Witness for C2: a single particle at `(33/64, 33/64)` (base cell
`(49, 49)`, interior) deposits total mass `1 · p_mass`. -/
theorem mass_conservation_witness :
    (∀ p ∈ [(⟨(33 / 64, 33 / 64), (0, 0), 0, 0⟩ : PState)], inGridInterior p.pos) ∧
    totalGridMass [(⟨(33 / 64, 33 / 64), (0, 0), 0, 0⟩ : PState)]
      = (([(⟨(33 / 64, 33 / 64), (0, 0), 0, 0⟩ : PState)].length : ℕ) : ℝ) * p_mass := by
  have hin : ∀ p ∈ [(⟨(33 / 64, 33 / 64), (0, 0), 0, 0⟩ : PState)], inGridInterior p.pos := by
    intro p hp
    simp only [List.mem_singleton] at hp
    subst hp
    show inGridInterior (33 / 64, 33 / 64)
    unfold inGridInterior
    rw [pbase_at_witness]
    simp only [n_grid]
    norm_num
  exact ⟨hin, mass_conservation _ hin⟩

/-! ## Claim C10: zero-mass grid nodes are untouched -/

/-- Positions at least half a cell from the low domain corner (every
particle the program simulates satisfies this; it makes the truncating
cast agree with `floor` so the B-spline weights are nonnegative). -/
def posInDomain (xp : ℝ × ℝ) : Prop :=
  0 ≤ xp.1 * inv_dx - 0.5 ∧ 0 ≤ xp.2 * inv_dx - 0.5

/-- Fractional-coordinate range for a nonnegative cast argument. -/
theorem pfx_range (u : ℝ) (h : 0 ≤ u * inv_dx - 0.5) :
    0.5 ≤ u * inv_dx - (fcast (u * inv_dx - 0.5) : ℝ) ∧
    u * inv_dx - (fcast (u * inv_dx - 0.5) : ℝ) < 1.5 := by
  unfold fcast
  rw [if_neg (not_lt.mpr h)]
  have h1 := Int.floor_le (u * inv_dx - 0.5)
  have h2 := Int.lt_floor_add_one (u * inv_dx - 0.5)
  constructor <;> linarith

/-- The B-spline weights are nonnegative on the reachable fractional
range `[0.5, 1.5)`. -/
theorem wq_nonneg (f : ℝ) (h1 : 0.5 ≤ f) (h2 : f < 1.5) (i : Fin 3) :
    0 ≤ wq f i := by
  fin_cases i <;> simp only [wq, Fin.val_zero, Fin.val_one, Fin.val_two] <;>
    norm_num <;> nlinarith

/-- Per-particle scatter weights are nonnegative for in-domain
positions. -/
theorem wAt_nonneg (xp : ℝ × ℝ) (h : posInDomain xp) (o : Fin 3 × Fin 3) :
    0 ≤ wAt xp o := by
  obtain ⟨hx, hy⟩ := h
  have r1 := pfx_range xp.1 hx
  have r2 := pfx_range xp.2 hy
  exact mul_nonneg
    (wq_nonneg _ r1.1 r1.2 o.1)
    (wq_nonneg _ r2.1 r2.2 o.2)

theorem p_mass_pos : 0 < p_mass := by
  rw [p_mass, p_vol, p_rho, dx]; norm_num

/-- A list of nonnegative reals with zero sum is all zeros. -/
theorem list_sum_nonneg_all_zero {l : List ℝ} (hn : ∀ x ∈ l, 0 ≤ x)
    (hs : l.sum = 0) : ∀ x ∈ l, x = 0 := by
  induction l with
  | nil => intro x hx; cases hx
  | cons a t ih =>
    have ha : 0 ≤ a := hn a (by simp)
    have ht : ∀ x ∈ t, 0 ≤ x := fun x hx => hn x (by simp [hx])
    have hts : 0 ≤ t.sum := List.sum_nonneg ht
    rw [List.sum_cons] at hs
    have ha0 : a = 0 := by linarith
    have hts0 : t.sum = 0 := by linarith
    intro x hx
    rcases List.mem_cons.mp hx with rfl | hx
    · exact ha0
    · exact ih ht hts0 x hx

/-- Claim C10: in the grid-update phase, a node whose accumulated mass is
zero is left entirely unchanged: both of its velocity buffers are the
zero vector after P2G, and the update (gravity, boundary conditions,
capsule response — all under the `0 < mass` guard) returns them as-is. -/
theorem zero_mass_node_untouched (astr arot : ℝ) (ps : List PState)
    (node : ℤ × ℤ) (grav : ℝ × ℝ) (capRot : ℝ) (capTrans capVel : ℝ × ℝ)
    (hdom : ∀ p ∈ ps, posInDomain p.pos)
    (h0 : gridM ps node = 0) :
    gridV astr arot ps node = 0 ∧ gridV0 astr arot ps node = 0 ∧
    updateNode node (gridM ps node) (gridV astr arot ps node)
        (gridV0 astr arot ps node) grav capRot capTrans capVel
      = (gridV astr arot ps node, gridV0 astr arot ps node) := by
  have hterm : ∀ p ∈ ps, ∀ o : Fin 3 × Fin 3, nodeOf p.pos o = node → wAt p.pos o = 0 := by
    intro p hp o heq
    have hmem : massContrib p.pos node ∈ ps.map fun q => massContrib q.pos node :=
      List.mem_map_of_mem _ hp
    have hnn : ∀ x ∈ ps.map fun q => massContrib q.pos node, 0 ≤ x := by
      intro x hx
      obtain ⟨q, hq, rfl⟩ := List.mem_map.mp hx
      exact Finset.sum_nonneg fun o' _ => by
        split
        · exact mul_nonneg (wAt_nonneg q.pos (hdom q hq) o') p_mass_pos.le
        · exact le_refl 0
    have hzero : massContrib p.pos node = 0 :=
      list_sum_nonneg_all_zero hnn h0 _ hmem
    have hall := (Finset.sum_eq_zero_iff_of_nonneg
      (fun o' _ => by
        split
        · exact mul_nonneg (wAt_nonneg p.pos (hdom p hp) o') p_mass_pos.le
        · exact le_refl 0)).mp hzero
    have := hall o (Finset.mem_univ o)
    rw [if_pos heq] at this
    have hw := mul_eq_zero.mp this
    rcases hw with hw | hw
    · exact hw
    · exact absurd hw p_mass_pos.ne'
  have hv : gridV astr arot ps node = 0 := by
    unfold gridV
    apply List.sum_eq_zero
    intro x hx
    obtain ⟨p, hp, rfl⟩ := List.mem_map.mp hx
    unfold vContrib
    apply Finset.sum_eq_zero
    intro o _
    split
    · rename_i heq
      rw [hterm p hp o heq, zero_smul]
    · rfl
  have hv0 : gridV0 astr arot ps node = 0 := by
    unfold gridV0
    apply List.sum_eq_zero
    intro x hx
    obtain ⟨p, hp, rfl⟩ := List.mem_map.mp hx
    unfold v0Contrib
    apply Finset.sum_eq_zero
    intro o _
    split
    · rename_i heq
      rw [hterm p hp o heq, zero_smul]
    · rfl
  refine ⟨hv, hv0, ?_⟩
  rw [h0]
  unfold updateNode
  rw [if_neg (lt_irrefl 0)]

/-- Witness for C10: the empty particle list gives zero mass at node
`(5, 5)`, and the update leaves the (zero) velocity buffers unchanged. -/
theorem zero_mass_node_untouched_witness :
    gridV 1 1 [] (5, 5) = 0 ∧ gridV0 1 1 [] (5, 5) = 0 ∧
    updateNode (5, 5) (gridM [] (5, 5)) (gridV 1 1 [] (5, 5))
        (gridV0 1 1 [] (5, 5)) (0, 0) 0 (0, 0) (0, 0)
      = (gridV 1 1 [] (5, 5), gridV0 1 1 [] (5, 5)) :=
  zero_mass_node_untouched 1 1 [] (5, 5) (0, 0) 0 (0, 0) (0, 0)
    (by intro p hp; cases hp) (by simp [gridM])

/-! ## Claim C7: a resting particle stays at rest under PIC advection -/

theorem Mat2.mulVec_fst (M : Mat2) (v : ℝ × ℝ) :
    (M.mulVec v).1 = M.a * v.1 + M.b * v.2 := rfl

theorem Mat2.mulVec_snd (M : Mat2) (v : ℝ × ℝ) :
    (M.mulVec v).2 = M.c * v.1 + M.d * v.2 := rfl

/-- If the truncating cast of `u` is at least 1, then `u` is nonnegative
(a negative `u` truncates to a non-positive integer). -/
theorem fcast_one_le_nonneg (u : ℝ) (h : 1 ≤ fcast u) : 0 ≤ u := by
  by_contra hneg
  push_neg at hneg
  unfold fcast at h
  rw [if_pos hneg] at h
  have h2 : 0 ≤ ⌊-u⌋ := Int.floor_nonneg.mpr (by linarith)
  omega

/-- A particle whose 3×3 neighborhood stays clear of the domain
boundary-condition margins (each node index in `[3, n_grid-3]`). -/
def picInterior (xp : ℝ × ℝ) : Prop :=
  3 ≤ (pbase xp).1 ∧ (pbase xp).1 + 2 ≤ n_grid - 3 ∧
  3 ≤ (pbase xp).2 ∧ (pbase xp).2 + 2 ≤ n_grid - 3

/-- Grid mass at a neighborhood node of a single-particle system. -/
theorem gridM_single (xp v : ℝ × ℝ) (Cm St : Mat2) (o : Fin 3 × Fin 3) :
    gridM [⟨xp, v, Cm, St⟩] (nodeOf xp o) = wAt xp o * p_mass := by
  simp only [gridM, List.map_cons, List.map_nil, List.sum_cons, List.sum_nil,
    add_zero]
  unfold massContrib
  simp only [nodeOf_inj]
  rw [Finset.sum_ite_eq' Finset.univ o (fun o' => wAt xp o' * p_mass),
    if_pos (Finset.mem_univ o)]

/-- Stressed momentum at a neighborhood node of a single-particle
system. -/
theorem gridV_single (astr arot : ℝ) (xp v : ℝ × ℝ) (Cm St : Mat2)
    (o : Fin 3 × Fin 3) :
    gridV astr arot [⟨xp, v, Cm, St⟩] (nodeOf xp o)
      = wAt xp o • (p_mass • v
          + (affineTotal astr arot ⟨xp, v, Cm, St⟩).mulVec (dposAt xp o)) := by
  simp only [gridV, List.map_cons, List.map_nil, List.sum_cons, List.sum_nil,
    add_zero]
  unfold vContrib
  simp only [nodeOf_inj]
  rw [Finset.sum_ite_eq' Finset.univ o
      (fun o' => wAt xp o' • (p_mass • v
        + (affineTotal astr arot ⟨xp, v, Cm, St⟩).mulVec (dposAt xp o'))),
    if_pos (Finset.mem_univ o)]

/-- Unstressed momentum at a neighborhood node of a single-particle
system. -/
theorem gridV0_single (astr arot : ℝ) (xp v : ℝ × ℝ) (Cm St : Mat2)
    (o : Fin 3 × Fin 3) :
    gridV0 astr arot [⟨xp, v, Cm, St⟩] (nodeOf xp o)
      = wAt xp o • (p_mass • v
          + (affineWithoutStress astr arot ⟨xp, v, Cm, St⟩).mulVec (dposAt xp o)) := by
  simp only [gridV0, List.map_cons, List.map_nil, List.sum_cons, List.sum_nil,
    add_zero]
  unfold v0Contrib
  simp only [nodeOf_inj]
  rw [Finset.sum_ite_eq' Finset.univ o
      (fun o' => wAt xp o' • (p_mass • v
        + (affineWithoutStress astr arot ⟨xp, v, Cm, St⟩).mulVec (dposAt xp o'))),
    if_pos (Finset.mem_univ o)]

/-- Grid update at an interior node with no capsule contact: only
normalization and gravity apply. -/
theorem updateNode_interior (node : ℤ × ℤ) (m : ℝ) (gv gv0 : ℝ × ℝ)
    (grav : ℝ × ℝ) (capRot : ℝ) (capTrans capVel : ℝ × ℝ)
    (hm : 0 < m) (h1 : 3 ≤ node.1) (h2 : node.1 ≤ n_grid - 3)
    (h3 : 3 ≤ node.2) (h4 : node.2 ≤ n_grid - 3)
    (hnc : ¬ capsulePhi capRot capTrans node < 0) :
    updateNode node m gv gv0 grav capRot capTrans capVel
      = ((1 / m) • gv + dt • grav, (1 / m) • gv0) := by
  have a1 : ¬ (node.1 < 3) := by omega
  have a2 : ¬ (n_grid - 3 < node.1) := by omega
  have a3 : ¬ (node.2 < 3) := by omega
  have a4 : ¬ (n_grid - 3 < node.2) := by omega
  simp only [updateNode, hm, a1, a2, a3, a4, hnc, if_true, false_and,
    if_false, ite_false, ite_true]

/-- The affine/stress contributions gathered back at the particle cancel:
the quadratic B-spline weights reproduce constants and linears
(`Σᵢ wᵢ = 1` and `Σᵢ wᵢ·(i − fx) = 0`). -/
theorem gather_cancel (xp : ℝ × ℝ) (M : Mat2) :
    ∑ o : Fin 3 × Fin 3, (wAt xp o / p_mass) • M.mulVec (dposAt xp o)
      = (0, 0) := by
  rw [Prod.ext_iff]
  constructor
  · rw [Prod.fst_sum]
    simp only [Prod.smul_fst, smul_eq_mul, Mat2.mulVec_fst, dposAt, wAt]
    rw [Fintype.sum_prod_type, Fin.sum_univ_three, Fin.sum_univ_three,
      Fin.sum_univ_three, Fin.sum_univ_three]
    simp only [wq, Fin.val_zero, Fin.val_one, Fin.val_two]
    norm_num
    ring
  · rw [Prod.snd_sum]
    simp only [Prod.smul_snd, smul_eq_mul, Mat2.mulVec_snd, dposAt, wAt]
    rw [Fintype.sum_prod_type, Fin.sum_univ_three, Fin.sum_univ_three,
      Fin.sum_univ_three, Fin.sum_univ_three]
    simp only [wq, Fin.val_zero, Fin.val_one, Fin.val_two]
    norm_num
    ring

/-- Claim C7: in the `flip_velocity_adjustment = 0` branch (PIC/APIC
family), with zero gravity and no capsule contact at the particle's nine
neighborhood nodes, a lone particle at rest (`v = 0`, `C = 0`) away from
the domain margins has velocity `0` and its exact position after one
substep — for every stress matrix `St` the constitutive pipeline may
produce and every APIC coefficient pair. -/
theorem pic_rest_particle (xp : ℝ × ℝ) (St : Mat2) (astr arot capRot : ℝ)
    (capTrans capVel : ℝ × ℝ)
    (hint : picInterior xp)
    (hnc : ∀ o : Fin 3 × Fin 3, ¬ capsulePhi capRot capTrans (nodeOf xp o) < 0) :
    picNewVel astr arot [⟨xp, (0, 0), 0, St⟩] (0, 0) capRot capTrans capVel
        ⟨xp, (0, 0), 0, St⟩ = (0, 0) ∧
    picNewPos astr arot [⟨xp, (0, 0), 0, St⟩] (0, 0) capRot capTrans capVel
        ⟨xp, (0, 0), 0, St⟩ = xp := by
  obtain ⟨hb1, hb2, hb3, hb4⟩ := hint
  have hdom : posInDomain xp := by
    constructor
    · exact fcast_one_le_nonneg _ (le_trans (by norm_num) hb1)
    · exact fcast_one_le_nonneg _ (le_trans (by norm_num) hb3)
  have key : ∀ o : Fin 3 × Fin 3,
      wAt xp o • substepGridV astr arot [⟨xp, (0, 0), 0, St⟩] (0, 0) capRot
          capTrans capVel (nodeOf xp o)
        = (wAt xp o / p_mass) •
            (affineTotal astr arot ⟨xp, (0, 0), 0, St⟩).mulVec (dposAt xp o) := by
    intro o
    rcases (wAt_nonneg xp hdom o).eq_or_lt with hw | hw
    · rw [← hw, zero_smul, zero_div, zero_smul]
    · have hmpos : 0 < wAt xp o * p_mass := mul_pos hw p_mass_pos
      have hn1 : 3 ≤ (nodeOf xp o).1 := by
        have := o.1.isLt
        simp only [nodeOf]
        omega
      have hn2 : (nodeOf xp o).1 ≤ n_grid - 3 := by
        have := o.1.isLt
        simp only [nodeOf]
        omega
      have hn3 : 3 ≤ (nodeOf xp o).2 := by
        have := o.2.isLt
        simp only [nodeOf]
        omega
      have hn4 : (nodeOf xp o).2 ≤ n_grid - 3 := by
        have := o.2.isLt
        simp only [nodeOf]
        omega
      unfold substepGridV
      rw [gridM_single, gridV_single, gridV0_single,
        updateNode_interior _ _ _ _ _ _ _ _ hmpos hn1 hn2 hn3 hn4 (hnc o)]
      simp only [Prod.mk_zero_zero, smul_zero, zero_add, add_zero, smul_smul]
      rw [show wAt xp o * (1 / (wAt xp o * p_mass) * wAt xp o)
          = wAt xp o / p_mass by
        have hpm : p_mass ≠ 0 := p_mass_pos.ne'
        have hwne : wAt xp o ≠ 0 := hw.ne'
        field_simp
        ring]
  have hvel : picNewVel astr arot [⟨xp, (0, 0), 0, St⟩] (0, 0) capRot capTrans
      capVel ⟨xp, (0, 0), 0, St⟩ = (0, 0) := by
    unfold picNewVel gatherV
    rw [Finset.sum_congr rfl (fun o _ => key o)]
    exact gather_cancel xp (affineTotal astr arot ⟨xp, (0, 0), 0, St⟩)
  refine ⟨hvel, ?_⟩
  unfold picNewPos
  rw [hvel]
  simp

/-- A point left of the capsule by at least the radius has nonnegative
signed distance. -/
theorem SdfCapsule_nonneg_far (X : ℝ × ℝ) (r hl : ℝ) (hhl : 0 < hl)
    (hr : 0 ≤ r) (h : X.1 + hl ≤ -r) : 0 ≤ SdfCapsule X r hl := by
  rw [SdfCapsule_eq_dist X r hl hhl]
  have hx : X.1 ≤ -hl := by linarith
  have hclamp : min (max X.1 (-hl)) hl = -hl := by
    rw [max_eq_right hx, min_eq_left (by linarith)]
  have hdist : distToSegment X hl = norm2 (X.1 + hl, X.2) := by
    unfold distToSegment
    rw [hclamp, sub_neg_eq_add]
  have hsq : r ^ 2 ≤ (X.1 + hl) ^ 2 + X.2 ^ 2 := by nlinarith
  have : r ≤ norm2 (X.1 + hl, X.2) := by
    calc r = Real.sqrt (r ^ 2) := (Real.sqrt_sq hr).symm
      _ ≤ Real.sqrt ((X.1 + hl) ^ 2 + X.2 ^ 2) := Real.sqrt_le_sqrt hsq
      _ = norm2 (X.1 + hl, X.2) := rfl
  rw [hdist]
  linarith

/-- Witness for C7: a particle at `(33/64, 33/64)` (base cell `(49,49)`,
interior) with the capsule translated to `(100, 100)`, zero rotation, and
an arbitrary nonzero stress matrix. -/
theorem pic_rest_particle_witness :
    picInterior (33 / 64, 33 / 64) ∧
    (picNewVel 1 1 [⟨(33 / 64, 33 / 64), (0, 0), 0, ⟨1, 2, 3, 4⟩⟩] (0, 0) 0
        (100, 100) (0, 0) ⟨(33 / 64, 33 / 64), (0, 0), 0, ⟨1, 2, 3, 4⟩⟩ = (0, 0) ∧
     picNewPos 1 1 [⟨(33 / 64, 33 / 64), (0, 0), 0, ⟨1, 2, 3, 4⟩⟩] (0, 0) 0
        (100, 100) (0, 0) ⟨(33 / 64, 33 / 64), (0, 0), 0, ⟨1, 2, 3, 4⟩⟩
       = (33 / 64, 33 / 64)) := by
  have hint : picInterior (33 / 64, 33 / 64) := by
    unfold picInterior
    rw [pbase_at_witness]
    simp only [n_grid]
    norm_num
  have hnc : ∀ o : Fin 3 × Fin 3,
      ¬ capsulePhi 0 (100, 100) (nodeOf (33 / 64, 33 / 64) o) < 0 := by
    intro o
    unfold capsulePhi
    apply not_lt.mpr
    apply SdfCapsule_nonneg_far _ _ _
      (by rw [capsule_half_length]; norm_num)
      (by rw [capsule_radius]; norm_num)
    have hval : ((o.1.val : ℤ) : ℝ) ≤ 2 := by
      have h := o.1.isLt
      have h2 : (o.1.val : ℤ) ≤ 2 := by omega
      exact_mod_cast h2
    simp only [capsuleLocal, WorldSpaceToMaterialSpace, Mat2.mulVec,
      Mat2.transpose, rotMat, Real.cos_zero, Real.sin_zero, nodePos, nodeOf,
      pbase_at_witness, Prod.fst_sub]
    rw [dx, capsule_half_length, capsule_radius]
    push_cast
    push_cast at hval
    nlinarith [hval]
  exact ⟨hint, pic_rest_particle (33 / 64, 33 / 64) ⟨1, 2, 3, 4⟩ 1 1 0
    (100, 100) (0, 0) hint hnc⟩

end

/-! ## Claim C9: collider translation velocity stop (driver loop)

The main loop (src lines 444-451) runs `int(frame_dt // dt)` substeps,
increments the frame counter, and zeroes `capsule_trans_vel` once
`frame > capsule_move_frame`.  The part is modelled executably over `ℚ`.
Python computes with binary64 floats: where that matters — the floor
division `frame_dt // dt`, whose binary64 quotient falls just short of
the exact-decimal value — the operands are taken as the exact rational
values of the doubles `4e-3` and `1e-4`. -/

def frame_dtQ : ℚ := 4 / 1000

/-- The IEEE-754 binary64 value of the literal `4e-3` (`frame_dt`,
src line 101), as an exact rational: `1152921504606847 · 2⁻⁵⁸`. -/
def frame_dtF : ℚ := 1152921504606847 / 2 ^ 58

/-- The IEEE-754 binary64 value of the literal `1e-4` (`dt`, src line
102), as an exact rational: `7378697629483821 · 2⁻⁶⁶`. -/
def dtF : ℚ := 7378697629483821 / 2 ^ 66

def init_capsule_center_yQ : ℚ := 6 / 10

def init_capsule_vel_yQ : ℚ := -1

/-- Substep count `int(frame_dt // dt)` per frame (src line 445).
Python `//` on floats is floor division of the binary64 operands: the
exact quotient `frame_dtF / dtF = 295147905179352832 / 7378697629483821`
is just below `40`, so `4e-3 // 1e-4 = 39.0` and the program runs 39
substeps per frame — not the 40 that exact decimal arithmetic would
give. -/
def substeps_per_frame : ℕ := (⌊frame_dtF / dtF⌋).toNat

/-- Constant `capsule_move_frame = int((0.3 - init_capsule_center_y)
/ init_capsule_vel_y / frame_dt)` (src lines 118-119); the value is the
positive number `75`, where Python `int()` truncation equals `floor`.
Unlike the floor division above, the binary64 evaluation of this chain
lands on exactly `75.0`, so the exact-decimal model coincides with the
float semantics here. -/
def capsule_move_frame : ℤ :=
  ⌊(3 / 10 - init_capsule_center_yQ) / init_capsule_vel_yQ / frame_dtQ⌋

/-- Collider-relevant driver state: the frame counter and the capsule
pose/velocity fields. -/
structure DriverState where
  frame : ℕ
  transVel : ℚ × ℚ
  translation : ℚ × ℚ
  rotation : ℚ

/-- The collider bookkeeping of one `Substep` (src lines 216-217):
rotation and translation advance; nothing in `Substep` writes
`capsule_trans_vel`. -/
def colliderSubstep (s : DriverState) : DriverState :=
  { s with
    rotation := s.rotation + 80 * dtF,
    translation := (s.translation.1 + s.transVel.1 * dtF,
                    s.translation.2 + s.transVel.2 * dtF) }

/-- One unpaused main-loop iteration (src lines 444-451): the substeps,
then `frame += 1`, then `if frame > capsule_move_frame:
capsule_trans_vel = [0, 0]`. -/
def frameStep (s : DriverState) : DriverState :=
  let s1 := colliderSubstep^[substeps_per_frame] s
  let f := s1.frame + 1
  { s1 with
    frame := f,
    transVel := if capsule_move_frame < (f : ℤ) then (0, 0) else s1.transVel }

/-- The state after `Reset()` (src lines 360-363) with the frame counter
at `0` (src line 406). -/
def resetState : DriverState :=
  { frame := 0, transVel := (0, -1), translation := (1 / 2, 6 / 10), rotation := 0 }

theorem capsule_move_frame_eq : capsule_move_frame = 75 := by
  have h : (3 / 10 - init_capsule_center_yQ) / init_capsule_vel_yQ / frame_dtQ
      = ((75 : ℤ) : ℚ) := by
    rw [init_capsule_center_yQ, init_capsule_vel_yQ, frame_dtQ]
    norm_num
  rw [capsule_move_frame, h, Int.floor_intCast]

theorem substeps_per_frame_eq : substeps_per_frame = 39 := by
  have h : ⌊frame_dtF / dtF⌋ = 39 := by
    rw [Int.floor_eq_iff]
    constructor
    · rw [frame_dtF, dtF]
      norm_num
    · rw [frame_dtF, dtF]
      norm_num
  rw [substeps_per_frame, h]
  rfl

/-- Substeps change neither the frame counter nor the translation
velocity. -/
theorem colliderIter_keep (k : ℕ) (s : DriverState) :
    (colliderSubstep^[k] s).frame = s.frame ∧
    (colliderSubstep^[k] s).transVel = s.transVel := by
  induction k generalizing s with
  | zero => exact ⟨rfl, rfl⟩
  | succ n ih =>
    rw [Function.iterate_succ_apply]
    exact ⟨(ih (colliderSubstep s)).1, (ih (colliderSubstep s)).2⟩

theorem frameStep_frame (s : DriverState) : (frameStep s).frame = s.frame + 1 := by
  unfold frameStep
  simp only []
  rw [(colliderIter_keep substeps_per_frame s).1]

/-- The velocity written by one loop iteration, in terms of the incoming
state. -/
theorem frameStep_transVel (s : DriverState) :
    (frameStep s).transVel
      = if capsule_move_frame < ((s.frame + 1 : ℕ) : ℤ) then (0, 0)
        else s.transVel := by
  unfold frameStep
  simp only []
  rw [(colliderIter_keep substeps_per_frame s).1,
    (colliderIter_keep substeps_per_frame s).2]

theorem frames_count (k : ℕ) : (frameStep^[k] resetState).frame = k := by
  induction k with
  | zero => rfl
  | succ n ih => rw [Function.iterate_succ_apply', frameStep_frame, ih]

/-- While the frame counter has not exceeded `capsule_move_frame`, the
translation velocity keeps its reset value `(0, -1)`. -/
theorem transVel_before_stop (k : ℕ) (hk : (k : ℤ) ≤ capsule_move_frame) :
    (frameStep^[k] resetState).transVel = (0, -1) := by
  induction k with
  | zero => rfl
  | succ n ih =>
    have hn : (n : ℤ) ≤ capsule_move_frame := by push_cast at hk ⊢; omega
    rw [Function.iterate_succ_apply', frameStep_transVel, frames_count,
      if_neg (by push_cast at hk ⊢; omega), ih hn]

/-- Counterexample to claim C9 as stated: after exactly
`capsule_move_frame = 75` substeps — and even after 75 whole frames
(75 × 39 substeps) — the collider translation velocity is still
`(0, -1)`, not `(0, 0)`; the zeroing happens only when the frame counter
first EXCEEDS `capsule_move_frame`. -/
theorem capsule_stop_counterexample :
    capsule_move_frame = 75 ∧
    (colliderSubstep^[75] resetState).transVel = (0, -1) ∧
    (frameStep^[75] resetState).transVel = (0, -1) ∧
    ((0 : ℚ), (-1 : ℚ)) ≠ ((0 : ℚ), (0 : ℚ)) := by
  refine ⟨capsule_move_frame_eq, (colliderIter_keep 75 resetState).2, ?_, by decide⟩
  exact transVel_before_stop 75 (by rw [capsule_move_frame_eq]; norm_num)

/-- Claim C9, amended: the translation velocity is forced to `(0, 0)` at
the end of frame `capsule_move_frame + 1` (that is, after
`(capsule_move_frame + 1) · 39` substeps, `int(frame_dt // dt) = 39`
being the per-frame substep count under Python's float floor division,
when the frame counter first exceeds `capsule_move_frame`), and it
stays `(0, 0)` at every later frame of the run. -/
theorem capsule_stop_after_frames (k : ℕ) :
    (frameStep^[capsule_move_frame.toNat + 1 + k] resetState).transVel = (0, 0) := by
  have h76 : capsule_move_frame.toNat + 1 + k = (75 + k) + 1 := by
    rw [capsule_move_frame_eq]
    omega
  rw [h76, Function.iterate_succ_apply', frameStep_transVel, frames_count,
    if_pos (by rw [capsule_move_frame_eq]; push_cast; omega)]
